import Mathlib

/-!
Verification of the ant-design-icons SVG build pipeline (`build.ts`).

The pipeline reads SVG sources for three themes, optimizes and parses them
into abstract trees, applies a twotone fill fixup, and emits per-icon
modules, an index module and a manifest module.  We embed the data model
and the operations of `build.ts` shallowly: JS strings become `List Char`
(wrapped in `String`), JS objects used as attribute maps become ordered
association lists, the rxjs merge of concurrently-completing async
materialization tasks becomes an explicit completion-order parameter
(a permutation of the subscription-order task list), and fallible steps
return `Except`.
-/

namespace AntdIcons

/-! ## Characters and low-level string machinery -/

/-- The double-quote character, the delimiter of JSON string tokens. -/
def qC : Char := '\"'

/-- The hash character, first character of every recognized color literal. -/
def hashC : Char := '#'

def lcbC : Char := '\x7b'
def rcbC : Char := '\x7d'
def lbkC : Char := '['
def rbkC : Char := ']'
def colonC : Char := ':'
def commaC : Char := ','

/-- Replacement of every (leftmost, non-overlapping) occurrence of `pat` by
`rep`, scanning left to right and never rescanning emitted replacement text.
This models the JS global regex replace `s.replace(/pat/g, rep)` for a
literal pattern, as used for the color placeholders in `build.ts`. -/
def replaceAll (pat rep : List Char) : List Char → List Char
  | [] => []
  | c :: rest =>
    if pat.isPrefixOf (c :: rest) && !pat.isEmpty then
      rep ++ replaceAll pat rep (rest.drop (pat.length - 1))
    else
      c :: replaceAll pat rep rest
termination_by l => l.length
decreasing_by
  · simp only [List.length_cons, List.length_drop]
    omega
  · simp

/-- Replacement of only the first occurrence of `pat` by `rep`.  This models
the JS `s.replace(pat, rep)` with a *string* pattern, which replaces only the
first occurrence — used for all template placeholder tokens in `build.ts`. -/
def replaceFirst (pat rep : List Char) : List Char → List Char
  | [] => []
  | c :: rest =>
    if pat.isPrefixOf (c :: rest) && !pat.isEmpty then
      rep ++ rest.drop (pat.length - 1)
    else
      c :: replaceFirst pat rep rest

/-- String-level wrapper of `replaceAll`. -/
def replaceAllS (s pat rep : String) : String :=
  String.mk (replaceAll pat.data rep.data s.data)

/-- String-level wrapper of `replaceFirst`. -/
def replaceFirstS (s pat rep : String) : String :=
  String.mk (replaceFirst pat.data rep.data s.data)

/-! ## Data model (`types.ts`) -/

/-- The closed theme enumeration `ThemeType = 'fill' | 'outline' | 'twotone'`. -/
inductive ThemeType where
  | fill
  | outline
  | twotone
deriving DecidableEq, Repr

/-- The lowercase theme string as it appears in paths and generated code. -/
def themeName : ThemeType → String
  | .fill => "fill"
  | .outline => "outline"
  | .twotone => "twotone"

/-- `AbstractNode`: one markup element — tag, attribute map, children.
JS objects used as string-keyed attribute maps are embedded as ordered
association lists (insertion order, unique keys); an absent attribute is an
absent key. -/
inductive AbstractNode where
  | mk (tag : String) (attrs : List (String × String)) (children : List AbstractNode)

def AbstractNode.tag : AbstractNode → String
  | .mk t _ _ => t

def AbstractNode.attrs : AbstractNode → List (String × String)
  | .mk _ a _ => a

def AbstractNode.children : AbstractNode → List AbstractNode
  | .mk _ _ c => c

/-- `IconDefinition`: an `AbstractNode` extended with the icon's kebab-case
name and its theme. -/
structure IconDefinition where
  name : String
  theme : ThemeType
  tag : String
  attrs : List (String × String)
  children : List AbstractNode

/-- `Manifest`: the per-theme name lists. -/
structure Manifest where
  fill : List String
  outline : List String
  twotone : List String
deriving DecidableEq, Repr

/-- Projection of a `Manifest` at a theme (`manifest[theme]`). -/
def Manifest.get (m : Manifest) : ThemeType → List String
  | .fill => m.fill
  | .outline => m.outline
  | .twotone => m.twotone

/-- First-occurrence lookup in an attribute list: `obj.key`, returning
`none` when the key is absent. -/
def lookupAttr (attrs : List (String × String)) (k : String) : Option String :=
  match attrs with
  | [] => none
  | (k', v) :: rest => if k' = k then some v else lookupAttr rest k

/-- Assignment `obj.key = v` on the association-list embedding of a JS
object: overwrite the (unique) existing entry in place, or append a new
entry at the end. -/
def setAttr (attrs : List (String × String)) (k v : String) : List (String × String) :=
  match attrs with
  | [] => [(k, v)]
  | (k', v') :: rest => if k' = k then (k, v) :: rest else (k', v') :: setAttr rest k v

/-- JS falsiness of an optional string: `undefined` and the empty string
are falsy, every other string is truthy. -/
def jsFalsy : Option String → Bool
  | none => true
  | some s => s == ""

/-! ## Theme fixup (`build.ts` lines 127-133) -/

/-- One child's update in the twotone fixup:
`pathElment.attrs.fill = pathElment.attrs.fill || '#333'`.  The assignment
always runs; the assigned value is the old one when it is truthy and
`'#333'` when it is absent or falsy (the empty string). -/
def fixChild (c : AbstractNode) : AbstractNode :=
  .mk c.tag
    (setAttr c.attrs "fill"
      (match lookupAttr c.attrs "fill" with
        | some v => if v == "" then "#333" else v
        | none => "#333"))
    c.children

/-- The twotone fixup of `build.ts`: when the icon's theme is `twotone`,
every immediate child gets the `fill` assignment of `fixChild` (the source
first takes a deep copy, so this is a pure function of the icon); other
themes are untouched. -/
def fixupIcon (icon : IconDefinition) : IconDefinition :=
  if icon.theme = .twotone then
    { icon with children := icon.children.map fixChild }
  else icon

/-! ## Optimizer fill-stripping (`build.ts` lines 47-56) -/

mutual

/-- Modelled from the spec: the `removeAttrs: \x7b attrs: ['fill'] \x7d`
plugin added to the optimizer for single-color themes — the optimizer and
`parse5`/`generateAbstractTree` are external collaborators not under
`src/`; per the spec the variant "strip[s] any `fill` attribute", which we
model as removing the `fill` key from every node of the parsed tree. -/
def removeFillDeep : AbstractNode → AbstractNode
  | .mk t attrs cs =>
    .mk t (attrs.filter (fun kv => kv.1 ≠ "fill")) (removeFillList cs)

def removeFillList : List AbstractNode → List AbstractNode
  | [] => []
  | c :: cs => removeFillDeep c :: removeFillList cs

end

/-! ## JSON serialization (`JSON.stringify(icon)`) -/

/-- Escape of one character as in `JSON.stringify` (for the characters
that can occur in icon data: backslash, double quote, newline). -/
def escChar (c : Char) : List Char :=
  if c = '\\' then ['\\', '\\']
  else if c = qC then ['\\', qC]
  else if c = '\n' then ['\\', 'n']
  else [c]

/-- Escape of a whole string. -/
def esc (s : List Char) : List Char := (s.map escChar).flatten

/-- A token of the serialized JSON text: either a quoted string token
(emitted with its surrounding double quotes) or raw punctuation.  This
decomposition is what makes the purely textual color substitution of the
dual-tone emitter analyzable: the recognized literals `"#333"` etc. are
quote-delimited, so their occurrences can only sit at string tokens. -/
inductive STok where
  | str (v : List Char)
  | raw (r : List Char)
deriving DecidableEq

/-- The characters of one token. -/
def flatTok : STok → List Char
  | .str v => qC :: v ++ [qC]
  | .raw r => r

/-- The characters of a token sequence. -/
def flatToks (ts : List STok) : List Char := (ts.map flatTok).flatten

/-- A string token for a (to-be-escaped) string field. -/
def strE (s : String) : STok := .str (esc s.data)

/-- Tokens for a JSON object key: `"key":`. -/
def keyToks (k : String) : List STok := [strE k, .raw [colonC]]

/-- Comma-separated concatenation of token sequences. -/
def joinComma (ls : List (List STok)) : List STok :=
  (ls.intersperse [.raw [commaC]]).flatten

/-- Tokens for one attribute entry: `"key":"value"`. -/
def attrToks (kv : String × String) : List STok :=
  [strE kv.1, .raw [colonC], strE kv.2]

/-- Tokens for the shared `tag`/`attrs`/`children` fields of a serialized
node, the children's tokens being passed in. -/
def bodyToks (tag : String) (attrs : List (String × String))
    (childrenToks : List STok) : List STok :=
  keyToks "tag" ++ [strE tag] ++ [.raw [commaC]] ++
  keyToks "attrs" ++ [.raw [lcbC]] ++ joinComma (attrs.map attrToks) ++
  [.raw [rcbC], .raw [commaC]] ++
  keyToks "children" ++ [.raw [lbkC]] ++ childrenToks ++ [.raw [rbkC]]

mutual

/-- Token sequence of `JSON.stringify` of one `AbstractNode`. -/
def nodeToks : AbstractNode → List STok
  | .mk t attrs cs =>
    [.raw [lcbC]] ++
    bodyToks t attrs (joinComma (nodeToksList cs)) ++
    [.raw [rcbC]]

/-- Token sequences of a list of nodes (one entry per node). -/
def nodeToksList : List AbstractNode → List (List STok)
  | [] => []
  | c :: cs => nodeToks c :: nodeToksList cs

end

/-- Token sequence of `JSON.stringify(icon)` for an `IconDefinition`
(`\x7b name, theme, ...tree \x7d`, so the keys come in the order `name`,
`theme`, then the tree fields; the tree field order is modelled from the
spec's `AbstractNode` shape, `generateAbstractTree` being external). -/
def iconToks (icon : IconDefinition) : List STok :=
  [.raw [lcbC]] ++
  keyToks "name" ++ [strE icon.name] ++ [.raw [commaC]] ++
  keyToks "theme" ++ [strE (themeName icon.theme)] ++ [.raw [commaC]] ++
  bodyToks icon.tag icon.attrs (joinComma (nodeToksList icon.children)) ++
  [.raw [rcbC]]

/-- The serialized icon, `JSON.stringify(icon)`. -/
def serializeIcon (icon : IconDefinition) : String :=
  String.mk (flatToks (iconToks icon))

/-! ## Dual-tone color substitution (`build.ts` lines 144-150) -/

def primaryRep : List Char := "primaryColor".data
def secondaryRep : List Char := "secondaryColor".data

/-- A color literal as it occurs quoted in the serialized JSON. -/
def quoted (w : List Char) : List Char := qC :: w ++ [qC]

def lit333 : List Char := "#333".data
def litE6 : List Char := "#E6E6E6".data
def litD9 : List Char := "#D9D9D9".data
def litD8 : List Char := "#D8D8D8".data

/-- The chained global replacements of the dual-tone emitter:
`.replace(/"#333"/g, 'primaryColor').replace(/"#E6E6E6"/g,
'secondaryColor').replace(/"#D9D9D9"/g, 'secondaryColor')
.replace(/"#D8D8D8"/g, 'secondaryColor')`. -/
def colorSubst (s : List Char) : List Char :=
  replaceAll (quoted litD8) secondaryRep
    (replaceAll (quoted litD9) secondaryRep
      (replaceAll (quoted litE6) secondaryRep
        (replaceAll (quoted lit333) primaryRep s)))

/-- String-level wrapper of `colorSubst`. -/
def colorSubstS (s : String) : String := String.mk (colorSubst s.data)

/-- The getter-function body spliced into the dual-tone template:
`function (primaryColor: string, secondaryColor: string) \x7b return
<substituted JSON>; \x7d`. -/
def getterBody (icon : IconDefinition) : String :=
  "function (primaryColor: string, secondaryColor: string) \x7b return " ++
  colorSubstS (serializeIcon icon) ++ "; \x7d"

/-! ## Build inputs and configuration -/

/-- The per-run inputs of `build`:
* `svgBasicNames` — the canonical kebab-case base-name list returned by
  `normalize(env)` (the Name Normalizer, an external collaborator);
* `accessable` — `isAccessable(SVG_DIR/theme/name.svg)`, whether the
  source file of a (theme, name) pair exists;
* `raw` — the result of `fs.readFile` + base `svgo.optimize` +
  `parse5.parseFragment` + `generateAbstractTree` for a (theme, name)
  pair: the parsed abstract tree, or the propagated failure of the
  optimizer/parser for that file. -/
structure BuildInput where
  svgBasicNames : List String
  accessable : ThemeType → String → Bool
  raw : ThemeType → String → Except String AbstractNode

/-- The template strings, placeholder tokens and output paths of `env`
(the token strings live in `./constants`, outside `src/`, and are an
opaque implementation contract per the spec, so they are carried as
configuration data). -/
structure BuildConfig where
  iconTemplate : String
  twoToneTemplate : String
  indexTemplate : String
  manifestTemplate : String
  iconIdentifierTok : String
  iconGetterFunctionTok : String
  iconJsonTok : String
  twoToneNameTok : String
  twoToneThemeTok : String
  exportComponentTok : String
  exportManifestTok : String
  iconOutputDir : String
  indexOutput : String
  manifestOutput : String

/-- Modelled from the spec: the external code formatter (`Prettier.format`,
out of scope per the spec §1) is assumed content-preserving and embedded as
the identity on the generated text. -/
def prettierFormat (s : String) : String := s

/-- Modelled from the spec: `_.upperFirst(_.camelCase(name))` (lodash,
external) — kebab-case to UpperCamelCase: split on dashes, capitalize each
word's first letter, lowercase the rest, concatenate. -/
def pascalWord : List Char → List Char
  | [] => []
  | c :: cs => c.toUpper :: cs.map Char.toLower

def pascalCase (s : String) : String :=
  String.mk (((s.data.splitOn '-').map pascalWord).flatten)

/-- Modelled from the spec: `getIdentifier` (in `utils`, outside `src/`) —
"`identifier` is derived as `UpperCamelCase(baseName) + themeSuffix`"; the
suffixes are fixed by the spec §8 scenario (`HomeFill`, `UserFill`,
`HomeTwoTone`). -/
def themeSuffix : ThemeType → String
  | .fill => "Fill"
  | .outline => "Outline"
  | .twotone => "TwoTone"

def getIdentifier (base : String) (theme : ThemeType) : String :=
  base ++ themeSuffix theme

/-! ## Materialization (`svgMetaDataWithTheme$`, `build.ts` lines 64-111) -/

/-- The single-color themes, whose optimizer variant strips `fill`. -/
def singleType : List ThemeType := [.fill, .outline]

/-- `BuildTimeIconMetaData`: a generated-module identifier paired with its
`IconDefinition`. -/
structure BuildTimeIconMetaData where
  identifier : String
  icon : IconDefinition

/-- Materialization of one (theme, name) pair: optimize with the
theme-selected optimizer variant (`svgoForSingleIcon` strips `fill` for
`fill`/`outline`), parse, and assemble the `IconDefinition` with the
icon's kebab-case name and theme spread over the tree fields. -/
def materialize (inp : BuildInput) (theme : ThemeType) (name : String) :
    Except String BuildTimeIconMetaData :=
  match inp.raw theme name with
  | .error e => .error e
  | .ok tree =>
    let tree := if singleType.contains theme then removeFillDeep tree else tree
    .ok
      { identifier := getIdentifier (pascalCase name) theme
        icon :=
          { name := name
            theme := theme
            tag := tree.tag
            attrs := tree.attrs
            children := tree.children } }

/-- The theme iteration order of `from(['fill', 'outline', 'twotone'])`. -/
def themeOrder : List ThemeType := [.fill, .outline, .twotone]

/-- The materialization tasks in subscription order: for each theme in
theme order, the accessible names in canonical name order (the
`filter(isAccessable)` step skips (theme, name) pairs with no source
file). -/
def tasksFor (inp : BuildInput) : List (ThemeType × String) :=
  themeOrder.flatMap
    (fun th => (inp.svgBasicNames.filter (inp.accessable th)).map (fun n => (th, n)))

/-- Materialization of a task list in the given order, stopping at the
first failure — the behaviour of the merged async stream observed in a
given completion order: every task completing before the first failing
one is emitted, the failure errors the stream. -/
def metasOf (inp : BuildInput) :
    List (ThemeType × String) → Except String (List BuildTimeIconMetaData)
  | [] => .ok []
  | t :: rest =>
    match materialize inp t.1 t.2 with
    | .error e => .error e
    | .ok m =>
      match metasOf inp rest with
      | .error e => .error e
      | .ok ms => .ok (m :: ms)

/-! ## Code emitters (`iconFiles$`, `build.ts` lines 119-175) -/

/-- `WriteFileMetaData`: one write task. -/
structure WriteFileMetaData where
  path : String
  content : String
deriving DecidableEq, Repr

/-- The single-tone module content: the identifier and the serialized JSON
spliced into the single-tone template (both via first-occurrence string
replace), then formatted. -/
def singleContent (cfg : BuildConfig) (identifier : String)
    (icon : IconDefinition) : String :=
  prettierFormat
    (replaceFirstS
      (replaceFirstS cfg.iconTemplate cfg.iconIdentifierTok identifier)
      cfg.iconJsonTok (serializeIcon icon))

/-- The dual-tone module content: identifier, getter function body, name
and theme spliced into the dual-tone template (each via first-occurrence
string replace), then formatted. -/
def twoToneContent (cfg : BuildConfig) (identifier : String)
    (icon : IconDefinition) : String :=
  prettierFormat
    (replaceFirstS
      (replaceFirstS
        (replaceFirstS
          (replaceFirstS cfg.twoToneTemplate cfg.iconIdentifierTok identifier)
          cfg.iconGetterFunctionTok (getterBody icon))
        cfg.twoToneNameTok icon.name)
      cfg.twoToneThemeTok (themeName icon.theme))

/-- The emitted module content for one materialized icon: twotone icons
get the fixup (on a deep copy) and the dual-tone template, the others the
single-tone template. -/
def emitContent (cfg : BuildConfig) (identifier : String)
    (icon0 : IconDefinition) : String :=
  let icon := fixupIcon icon0
  if icon.theme = .twotone then twoToneContent cfg identifier icon
  else singleContent cfg identifier icon

/-- The write task of one materialized icon:
`\x7boutputDir\x7d/\x7btheme\x7d/\x7bidentifier\x7d.ts`. -/
def iconWriteTask (cfg : BuildConfig) (m : BuildTimeIconMetaData) :
    WriteFileMetaData :=
  { path := cfg.iconOutputDir ++ "/" ++ themeName m.icon.theme ++ "/" ++
      m.identifier ++ ".ts"
    content := emitContent cfg m.identifier m.icon }

/-! ## Aggregate emitters (`indexFile$`, `manifestFile$`) -/

/-- One re-export line of the index module:
`export \x7b default as Id \x7d from './theme/Id';`. -/
def exportLine (m : BuildTimeIconMetaData) : String :=
  "export \x7b default as " ++ m.identifier ++ " \x7d from './" ++
  themeName m.icon.theme ++ "/" ++ m.identifier ++ "';\n"

/-- The `reduce` of `indexFile$`: concatenation of the re-export lines of
the emitted metadata in emission order. -/
def indexLines (ms : List BuildTimeIconMetaData) : String :=
  ms.foldl (fun acc m => acc ++ exportLine m) ""

/-- The index write task, given the emitted metadata in emission order. -/
def indexWriteTask (cfg : BuildConfig) (ms : List BuildTimeIconMetaData) :
    WriteFileMetaData :=
  { path := cfg.indexOutput
    content := prettierFormat
      (replaceFirstS cfg.indexTemplate cfg.exportComponentTok (indexLines ms)) }

/-- The `manifestFile$` aggregation: for each theme in theme order, the
canonical names whose source file exists under that theme, assigned into
the manifest record (which starts as three empty lists). -/
def buildManifest (inp : BuildInput) : Manifest :=
  ((themeOrder.map
      (fun th => (th, inp.svgBasicNames.filter (inp.accessable th)))).foldl
    (fun acc p =>
      match p.1 with
      | .fill => { acc with fill := p.2 }
      | .outline => { acc with outline := p.2 }
      | .twotone => { acc with twotone := p.2 })
    { fill := [], outline := [], twotone := [] })

/-- `JSON.stringify` of a manifest. -/
def serializeNames (names : List String) : String :=
  String.mk (flatToks ([.raw [lbkC]] ++
    joinComma (names.map (fun n => [strE n])) ++ [.raw [rbkC]]))

def serializeManifest (m : Manifest) : String :=
  String.mk (flatToks ([.raw [lcbC]] ++ keyToks "fill")) ++
  serializeNames m.fill ++ "," ++
  String.mk (flatToks (keyToks "outline")) ++ serializeNames m.outline ++
  "," ++ String.mk (flatToks (keyToks "twotone")) ++
  serializeNames m.twotone ++ String.mk [rcbC]

/-- The manifest write task. -/
def manifestWriteTask (cfg : BuildConfig) (inp : BuildInput) :
    WriteFileMetaData :=
  { path := cfg.manifestOutput
    content := prettierFormat
      (replaceFirstS cfg.manifestTemplate cfg.exportManifestTok
        ("export default " ++ serializeManifest (buildManifest inp) ++ ";")) }

/-! ## The run (`files$` and the final subscription, lines 231-248) -/

/-- The icon-file phase: the merged materialization stream, observed in
completion order `order`, with each emission immediately becoming an
executed write task (the final `mergeMap` writes each file as it arrives).
Returns the writes executed before the stream completed or errored, and
the error if one occurred. -/
def iconPhase (cfg : BuildConfig) (inp : BuildInput) :
    List (ThemeType × String) → List WriteFileMetaData × Option String
  | [] => ([], none)
  | t :: rest =>
    match materialize inp t.1 t.2 with
    | .error e => ([], some e)
    | .ok m =>
      let p := iconPhase cfg inp rest
      (iconWriteTask cfg m :: p.1, p.2)

/-- The outcome of one `build` run: the file writes that were executed, in
order, and the promise's resolution. -/
structure RunResult where
  writes : List WriteFileMetaData
  result : Except String Unit

/-- One `build` run.  `files$ = iconFiles$.concat(manifestFile$)
.concat(indexFile$)`: the icon writes stream first (in the completion
order `order1` of the first subscription to the cold materialization
stream), then — only if that stream completed — the manifest write, then
the index write, whose content reduces a *second* subscription to the
materialization stream observed in completion order `order2`.  An error
in either subscription rejects the promise and stops all later writes. -/
def buildRun (cfg : BuildConfig) (inp : BuildInput)
    (order1 order2 : List (ThemeType × String)) : RunResult :=
  match iconPhase cfg inp order1 with
  | (ws, some e) => { writes := ws, result := .error e }
  | (ws, none) =>
    let ws := ws ++ [manifestWriteTask cfg inp]
    match metasOf inp order2 with
    | .error e => { writes := ws, result := .error e }
    | .ok ms =>
      { writes := ws ++ [indexWriteTask cfg ms], result := .ok () }

/-! ## Wellformedness and cleanliness predicates -/

/-- Wellformedness of one token: string-token contents carry no raw double
quote (guaranteed by escaping), raw punctuation is nonempty and carries
neither a double quote nor a hash. -/
def wfTok : STok → Prop
  | .str v => qC ∉ v
  | .raw r => r ≠ [] ∧ qC ∉ r ∧ hashC ∉ r

def wfToks (ts : List STok) : Prop := ∀ t ∈ ts, wfTok t

/-- The shape of the two parameter-name replacement texts: nonempty, no
quote, no hash. -/
def okRep (rep : List Char) : Prop := rep ≠ [] ∧ qC ∉ rep ∧ hashC ∉ rep

/-- The token-level effect of one global replacement of the quoted literal
`w`: the string tokens equal to `w` become the raw replacement text, all
other tokens are unchanged. -/
def replTok (w rep : List Char) : STok → STok
  | .str v => if v = w then .raw rep else .str v
  | .raw r => .raw r

/-- The token-level effect of the full chained color substitution of the
dual-tone emitter: a string token equal to the primary placeholder
becomes the bare parameter name `primaryColor`, one equal to any of the
three secondary placeholders becomes `secondaryColor`, and every other
token — any other color literal included — is unchanged. -/
def substTok : STok → STok
  | .str v =>
    if v = lit333 then .raw primaryRep
    else if v = litE6 then .raw secondaryRep
    else if v = litD9 then .raw secondaryRep
    else if v = litD8 then .raw secondaryRep
    else .str v
  | .raw r => .raw r

/-- Cleanliness of one string field: no backslash, double quote or
newline, so JSON escaping leaves it unchanged.  Real icon data — tags,
attribute names, path data, color literals — is clean. -/
def cleanStr (s : String) : Bool :=
  decide ('\\' ∉ s.data) && decide (qC ∉ s.data) && decide ('\n' ∉ s.data)

def cleanAttrs (attrs : List (String × String)) : Bool :=
  attrs.all (fun kv => cleanStr kv.1 && cleanStr kv.2)

mutual

def cleanNode : AbstractNode → Bool
  | .mk t attrs cs => cleanStr t && cleanAttrs attrs && cleanNodeList cs

def cleanNodeList : List AbstractNode → Bool
  | [] => true
  | c :: cs => cleanNode c && cleanNodeList cs

end

def cleanIcon (icon : IconDefinition) : Bool :=
  cleanStr icon.name && cleanStr icon.tag && cleanAttrs icon.attrs &&
    cleanNodeList icon.children

/-! ## Object-identity model of the twotone deep copy

`build.ts` line 129 takes `icon = _.cloneDeep(icon)` before mutating the
children in place.  To state the aliasing claim we model object identity
explicitly: a store of icon objects, references as indices, `cloneDeep` as
allocation of a structurally equal fresh object, and the `forEach`
assignment as an in-place update at a reference. -/

def defaultIcon : IconDefinition :=
  { name := "", theme := .fill, tag := "", attrs := [], children := [] }

/-- A heap of icon objects; a reference is an index into it. -/
structure IconStore where
  icons : List IconDefinition

/-- Dereference. -/
def IconStore.getRef (s : IconStore) (r : Nat) : IconDefinition :=
  s.icons.getD r defaultIcon

/-- `_.cloneDeep(icon)`: allocate a fresh, structurally equal object and
return its reference. -/
def cloneDeepRef (s : IconStore) (r : Nat) : IconStore × Nat :=
  ({ icons := s.icons ++ [s.getRef r] }, s.icons.length)

/-- The in-place `icon.children.forEach(...)` fill assignment of lines
130-132, performed at reference `r`. -/
def fixupAtRef (s : IconStore) (r : Nat) : IconStore :=
  { icons :=
      s.icons.set r { s.getRef r with children := (s.getRef r).children.map fixChild } }

/-- Lines 128-133 of `build.ts` under explicit object identity: for a
twotone icon, clone, then mutate the clone in place; the returned
reference is the one the emitter serializes. -/
def emitterAliasStep (s : IconStore) (r : Nat) : IconStore × Nat :=
  if (s.getRef r).theme = .twotone then
    let p := cloneDeepRef s r
    (fixupAtRef p.1 p.2, p.2)
  else (s, r)

/-! ## Absence of `fill` attributes -/

mutual

/-- No node of the tree carries a `fill` attribute. -/
def noFillDeep : AbstractNode → Bool
  | .mk _ attrs cs => decide (lookupAttr attrs "fill" = none) && noFillList cs

def noFillList : List AbstractNode → Bool
  | [] => true
  | c :: cs => noFillDeep c && noFillList cs

end

/-- Neither the icon's root nor any node below it carries a `fill`
attribute. -/
def iconNoFill (icon : IconDefinition) : Bool :=
  decide (lookupAttr icon.attrs "fill" = none) && noFillList icon.children

/-! ## Concrete instances used in counterexamples and witnesses -/

/-- A small concrete build configuration (template and token strings are
an opaque contract; any concrete choice exercises the code paths). -/
def cfg0 : BuildConfig :=
  { iconTemplate := "ICONTPL <ID> <JSON>"
    twoToneTemplate := "TTTPL <ID> <GF> <NAME> <THEME>"
    indexTemplate := "IDXTPL <EXP>"
    manifestTemplate := "MFTPL <MF>"
    iconIdentifierTok := "<ID>"
    iconGetterFunctionTok := "<GF>"
    iconJsonTok := "<JSON>"
    twoToneNameTok := "<NAME>"
    twoToneThemeTok := "<THEME>"
    exportComponentTok := "<EXP>"
    exportManifestTok := "<MF>"
    iconOutputDir := "out/icons"
    indexOutput := "out/index.ts"
    manifestOutput := "out/manifest.ts" }

/-- Two icons `a`, `b`, both present only in the `fill` theme, both
materializing successfully. -/
def inp0 : BuildInput :=
  { svgBasicNames := ["a", "b"]
    accessable := fun th _ => decide (th = ThemeType.fill)
    raw := fun _ _ => .ok (.mk "svg" [] []) }

/-- A completion order in which the task for `b` finishes before the task
for `a` (the reverse of the subscription order of `inp0`). -/
def sigma0 : List (ThemeType × String) := [(.fill, "b"), (.fill, "a")]

/-- The materialization results of `inp0` as a total function. -/
def m0 : ThemeType × String → BuildTimeIconMetaData := fun t =>
  { identifier := getIdentifier (pascalCase t.2) t.1
    icon := { name := t.2, theme := t.1, tag := "svg", attrs := [], children := [] } }

/-- Like `inp0`, but the source of `b` fails to optimize. -/
def inpFail : BuildInput :=
  { svgBasicNames := ["a", "b"]
    accessable := fun th _ => decide (th = ThemeType.fill)
    raw := fun _ n => if n = "b" then .error "bad" else .ok (.mk "svg" [] []) }

/-- A twotone icon whose single immediate child is a non-path group
element carrying a present-but-empty `fill` attribute. -/
def icon3 : IconDefinition :=
  { name := "x", theme := .twotone, tag := "svg", attrs := []
    children := [.mk "g" [("fill", "")] []] }

/-- A clean twotone icon carrying the primary placeholder, an unrecognized
color literal and a fill-less path. -/
def iconW : IconDefinition :=
  { name := "home", theme := .twotone, tag := "svg"
    attrs := [("viewBox", "0 0 1024 1024")]
    children :=
      [.mk "path" [("d", "M1"), ("fill", "#333")] []
      , .mk "path" [("d", "M2"), ("fill", "#1890FF")] []
      , .mk "path" [("d", "M3")] []] }

/-- A raw tree carrying `fill` attributes at two depths. -/
def treeW : AbstractNode :=
  .mk "svg" [("fill", "red")] [.mk "path" [("fill", "#333"), ("d", "M1")] []]

/-- An input whose every source parses to `treeW`. -/
def inpW : BuildInput :=
  { svgBasicNames := ["home"]
    accessable := fun _ _ => true
    raw := fun _ _ => .ok treeW }

/-- A store holding one twotone icon, for the aliasing witness. -/
def storeW : IconStore := { icons := [icon3] }

/-! ## Basic lemmas: `isPrefixOf` and `replaceAll` -/

theorem isPrefixOf_iff_exists :
    ∀ (p l : List Char), p.isPrefixOf l = true ↔ ∃ t, p ++ t = l
  | [], l => by simp [List.isPrefixOf]
  | _ :: _, [] => by simp [List.isPrefixOf]
  | a :: as, b :: bs => by
    simp only [List.isPrefixOf, Bool.and_eq_true, beq_iff_eq,
      isPrefixOf_iff_exists as bs, List.cons_append, List.cons.injEq]
    constructor
    · rintro ⟨rfl, t, rfl⟩
      exact ⟨t, rfl, rfl⟩
    · rintro ⟨t, rfl, rfl⟩
      exact ⟨rfl, t, rfl⟩

theorem isPrefixOf_false_of_ne_head (a b : Char) (p l : List Char) (h : a ≠ b) :
    (a :: p).isPrefixOf (b :: l) = false := by
  rw [Bool.eq_false_iff]
  intro hc
  obtain ⟨t, ht⟩ := (isPrefixOf_iff_exists _ _).mp hc
  simp only [List.cons_append, List.cons.injEq] at ht
  exact h ht.1

theorem replaceAll_empty (pat rep : List Char) : replaceAll pat rep [] = [] := by
  simp [replaceAll]

/-- A leading occurrence of the (nonempty) pattern is replaced and the
scan continues after it. -/
theorem replaceAll_append_pat (pat rep s : List Char) (h : pat ≠ []) :
    replaceAll pat rep (pat ++ s) = rep ++ replaceAll pat rep s := by
  cases pat with
  | nil => exact absurd rfl h
  | cons p pr =>
    have hpre : (p :: pr).isPrefixOf ((p :: pr) ++ s) = true :=
      (isPrefixOf_iff_exists _ _).mpr ⟨s, rfl⟩
    rw [List.cons_append, replaceAll]
    rw [List.cons_append] at hpre
    simp only [hpre, List.isEmpty_cons, Bool.not_false, Bool.and_self, if_true]
    simp [List.length_cons, List.drop_left]

/-- A segment in which no occurrence of the pattern starts is copied
verbatim. -/
theorem replaceAll_append_of_no_match (pat rep a b : List Char)
    (h : ∀ i, i < a.length → pat.isPrefixOf ((a ++ b).drop i) = false) :
    replaceAll pat rep (a ++ b) = a ++ replaceAll pat rep b := by
  induction a with
  | nil => simp
  | cons c a' ih =>
    have h0 : pat.isPrefixOf (c :: (a' ++ b)) = false := by
      have := h 0 (by simp)
      simpa using this
    rw [List.cons_append, replaceAll, h0]
    simp only [Bool.false_and, Bool.false_eq_true, if_false, List.cons_append,
      List.cons.injEq, true_and]
    exact ih (fun i hi => by
      have := h (i + 1) (by simpa using Nat.succ_lt_succ hi)
      simpa using this)

/-- A string in which the pattern never occurs is left unchanged. -/
theorem replaceAll_of_no_match (pat rep s : List Char)
    (h : ∀ i, i < s.length → pat.isPrefixOf (s.drop i) = false) :
    replaceAll pat rep s = s := by
  have := replaceAll_append_of_no_match pat rep s [] (by simpa using h)
  simpa [replaceAll_empty] using this

/-! ## Wellformed token sequences and the token-level substitution -/

theorem flatToks_cons (t : STok) (ts : List STok) :
    flatToks (t :: ts) = flatTok t ++ flatToks ts := by
  simp [flatToks]

/-- The first character of a wellformed token sequence is never a hash. -/
theorem flatToks_head_ne_hash (ts : List STok) (h : wfToks ts) :
    ∀ c cs, flatToks ts = c :: cs → c ≠ hashC := by
  intro c cs heq
  cases ts with
  | nil => simp [flatToks] at heq
  | cons t ts' =>
    have ht : wfTok t := h t (List.mem_cons_self t ts')
    rw [flatToks_cons] at heq
    cases t with
    | str v =>
      simp only [flatTok, List.cons_append, List.cons.injEq] at heq
      rw [← heq.1]
      decide
    | raw r =>
      obtain ⟨hne, _, hh⟩ := ht
      cases r with
      | nil => exact absurd rfl hne
      | cons r0 r' =>
        simp only [flatTok, List.cons_append, List.cons.injEq] at heq
        intro hc
        exact hh (by rw [heq.1, hc]; exact List.mem_cons_self _ _)

/-- No occurrence of a quoted literal starts inside a raw punctuation
token (the pattern starts with a quote and raw tokens carry none). -/
theorem no_match_raw (w r rest : List Char) (hrq : qC ∉ r) :
    ∀ i, i < r.length → (quoted w).isPrefixOf ((r ++ rest).drop i) = false := by
  intro i hi
  rw [Bool.eq_false_iff]
  intro hc
  obtain ⟨t, ht⟩ := (isPrefixOf_iff_exists _ _).mp hc
  rw [List.drop_append_eq_append_drop] at ht
  have h0 : i - r.length = 0 := by omega
  rw [h0, List.drop_zero] at ht
  have hne : r.drop i ≠ [] := by
    intro hnil
    have := congrArg List.length hnil
    simp [List.length_drop] at this
    omega
  obtain ⟨x, xs, hx⟩ := List.exists_cons_of_ne_nil hne
  rw [hx] at ht
  simp only [quoted, List.cons_append, List.cons.injEq] at ht
  apply hrq
  rw [ht.1]
  exact List.drop_subset i r (hx ▸ List.mem_cons_self x xs)

/-- No occurrence of the quoted literal `w` starts inside the quoted
string token of a content `v ≠ w`, nor at its closing quote, provided the
following text does not begin with a hash. -/
theorem no_match_str (w w' v rest : List Char) (hw : w = hashC :: w') (hwq : qC ∉ w)
    (hv : qC ∉ v) (hne : v ≠ w)
    (hrest : ∀ c cs, rest = c :: cs → c ≠ hashC) :
    ∀ i, i < (qC :: (v ++ [qC])).length →
      (quoted w).isPrefixOf (((qC :: (v ++ [qC])) ++ rest).drop i) = false := by
  intro i hi
  rw [Bool.eq_false_iff]
  intro hc
  obtain ⟨t, ht⟩ := (isPrefixOf_iff_exists _ _).mp hc
  simp only [List.length_cons, List.length_append, List.length_nil] at hi
  rcases Nat.lt_or_ge i 1 with h1 | h1
  · -- the occurrence would start at the opening quote: forces `v = w`
    have hi0 : i = 0 := by omega
    subst hi0
    rw [List.drop_zero] at ht
    simp only [quoted, List.cons_append, List.append_assoc, List.cons.injEq] at ht
    have hmain : w ++ ([qC] ++ t) = v ++ ([qC] ++ rest) := ht.2
    rcases List.append_eq_append_iff.mp hmain with ⟨a', ha, hb⟩ | ⟨c', ha, hb⟩
    · cases a' with
      | nil => exact hne (by rw [ha, List.append_nil])
      | cons x a'' =>
        simp only [List.cons_append, List.cons.injEq] at hb
        apply hv
        rw [ha, ← hb.1]
        exact List.mem_append_right w (List.mem_cons_self _ _)
    · cases c' with
      | nil => exact hne (by rw [ha, List.append_nil])
      | cons x c'' =>
        simp only [List.cons_append, List.cons.injEq] at hb
        apply hwq
        rw [ha, ← hb.1]
        exact List.mem_append_right v (List.mem_cons_self _ _)
  · -- the occurrence would start after the opening quote
    obtain ⟨j, rfl⟩ : ∃ j, i = j + 1 := ⟨i - 1, by omega⟩
    rw [List.cons_append, List.drop_succ_cons, List.append_assoc,
      List.drop_append_eq_append_drop] at ht
    rcases Nat.lt_or_ge j v.length with hj | hj
    · -- inside the string content: the content has no quote
      have hj0 : j - v.length = 0 := by omega
      rw [hj0, List.drop_zero] at ht
      have hne' : v.drop j ≠ [] := by
        intro hnil
        have := congrArg List.length hnil
        simp [List.length_drop] at this
        omega
      obtain ⟨x, xs, hx⟩ := List.exists_cons_of_ne_nil hne'
      rw [hx] at ht
      simp only [quoted, List.cons_append, List.cons.injEq] at ht
      apply hv
      rw [ht.1]
      exact List.drop_subset j v (hx ▸ List.mem_cons_self x xs)
    · -- at the closing quote: the next text would have to start with `#`
      have hj1 : j = v.length := by omega
      subst hj1
      rw [List.drop_length, Nat.sub_self, List.drop_zero, List.nil_append] at ht
      simp only [quoted, List.cons_append, List.cons.injEq] at ht
      have h2 : w ++ [qC] ++ t = rest := by
        have := ht.2
        rwa [List.nil_append] at this
      have hr : rest = hashC :: (w' ++ ([qC] ++ t)) := by
        rw [← h2, hw]
        simp
      exact hrest hashC _ hr rfl

/-- The key token lemma: one global replacement of a quoted color literal
acts on a wellformed token sequence exactly tokenwise. -/
theorem replaceAll_flatToks (w w' rep : List Char) (hw : w = hashC :: w')
    (hwq : qC ∉ w) (ts : List STok) (hts : wfToks ts) :
    replaceAll (quoted w) rep (flatToks ts) = flatToks (ts.map (replTok w rep)) := by
  induction ts with
  | nil => simp [flatToks, replaceAll_empty]
  | cons t ts' ih =>
    have ht : wfTok t := hts t (List.mem_cons_self t ts')
    have hts' : wfToks ts' := fun u hu => hts u (List.mem_cons_of_mem t hu)
    have ihh := ih hts'
    rw [flatToks_cons, List.map_cons, flatToks_cons]
    cases t with
    | str v =>
      by_cases hvw : v = w
      · subst hvw
        have hfl : flatTok (STok.str v) = quoted v := by
          simp [flatTok, quoted]
        rw [hfl, replaceAll_append_pat _ _ _ (by simp [quoted]), ihh]
        simp [replTok, flatTok]
      · have hnm := no_match_str w w' v (flatToks ts') hw hwq ht hvw
          (flatToks_head_ne_hash ts' hts')
        have hfl : flatTok (STok.str v) = qC :: (v ++ [qC]) := by
          simp [flatTok]
        rw [hfl, replaceAll_append_of_no_match _ _ _ _ hnm, ihh]
        simp [replTok, hvw, flatTok]
    | raw r =>
      obtain ⟨hne, hq, hh⟩ := ht
      have hfl : flatTok (STok.raw r) = r := by simp [flatTok]
      rw [hfl, replaceAll_append_of_no_match _ _ _ _ (no_match_raw w r (flatToks ts') hq),
        ihh]
      simp [replTok, flatTok]

/-- Tokenwise replacement preserves wellformedness when the replacement
text is a parameter name (nonempty, quote-free, hash-free). -/
theorem wfToks_map_replTok (w rep : List Char) (hrep : okRep rep) (ts : List STok)
    (h : wfToks ts) : wfToks (ts.map (replTok w rep)) := by
  intro u hu
  rw [List.mem_map] at hu
  obtain ⟨t, htm, rfl⟩ := hu
  have ht := h t htm
  cases t with
  | str v =>
    by_cases hv : v = w
    · simpa [replTok, hv, wfTok] using hrep
    · simpa [replTok, hv, wfTok] using ht
  | raw r => simpa [replTok] using ht

/-- The four chained tokenwise replacements amount to the single
case-split of `substTok`. -/
theorem replTok_chain (t : STok) :
    replTok litD8 secondaryRep (replTok litD9 secondaryRep
      (replTok litE6 secondaryRep (replTok lit333 primaryRep t))) = substTok t := by
  cases t with
  | raw r => simp [replTok, substTok]
  | str v =>
    by_cases h1 : v = lit333
    · subst h1
      decide
    · by_cases h2 : v = litE6
      · subst h2
        decide
      · by_cases h3 : v = litD9
        · subst h3
          decide
        · by_cases h4 : v = litD8
          · subst h4
            decide
          · simp [replTok, substTok, h1, h2, h3, h4]

/-- The full chained color substitution acts tokenwise on a wellformed
token sequence. -/
theorem colorSubst_flatToks (ts : List STok) (h : wfToks ts) :
    colorSubst (flatToks ts) = flatToks (ts.map substTok) := by
  have ok1 : okRep primaryRep := by
    refine ⟨by decide, by decide, by decide⟩
  have ok2 : okRep secondaryRep := by
    refine ⟨by decide, by decide, by decide⟩
  have h1 := replaceAll_flatToks lit333 "333".data primaryRep (by decide) (by decide) ts h
  have w1 := wfToks_map_replTok lit333 primaryRep ok1 ts h
  have h2 := replaceAll_flatToks litE6 "E6E6E6".data secondaryRep (by decide) (by decide)
    _ w1
  have w2 := wfToks_map_replTok litE6 secondaryRep ok2 _ w1
  have h3 := replaceAll_flatToks litD9 "D9D9D9".data secondaryRep (by decide) (by decide)
    _ w2
  have w3 := wfToks_map_replTok litD9 secondaryRep ok2 _ w2
  have h4 := replaceAll_flatToks litD8 "D8D8D8".data secondaryRep (by decide) (by decide)
    _ w3
  have hmaps : ∀ ts' : List STok,
      List.map (replTok litD8 secondaryRep) (List.map (replTok litD9 secondaryRep)
        (List.map (replTok litE6 secondaryRep)
          (List.map (replTok lit333 primaryRep) ts'))) = List.map substTok ts' := by
    intro ts'
    induction ts' with
    | nil => rfl
    | cons t ts'' ih =>
      simp only [List.map_cons]
      rw [replTok_chain, ih]
  show replaceAll (quoted litD8) secondaryRep
      (replaceAll (quoted litD9) secondaryRep
        (replaceAll (quoted litE6) secondaryRep
          (replaceAll (quoted lit333) primaryRep (flatToks ts)))) =
    flatToks (ts.map substTok)
  rw [h1, h2, h3, h4, hmaps ts]

/-! ## `replaceFirst` lemmas -/

/-- A leading occurrence of the (nonempty) pattern is replaced and the
rest is kept verbatim — `replaceFirst` never continues scanning. -/
theorem replaceFirst_append_pat (pat rep s : List Char) (h : pat ≠ []) :
    replaceFirst pat rep (pat ++ s) = rep ++ s := by
  cases pat with
  | nil => exact absurd rfl h
  | cons p pr =>
    have hpre : (p :: pr).isPrefixOf ((p :: pr) ++ s) = true :=
      (isPrefixOf_iff_exists _ _).mpr ⟨s, rfl⟩
    rw [List.cons_append, replaceFirst]
    rw [List.cons_append] at hpre
    simp only [hpre, List.isEmpty_cons, Bool.not_false, Bool.and_self, if_true]
    simp [List.length_cons, List.drop_left]

/-- A segment in which no occurrence of the pattern starts is copied
verbatim by `replaceFirst`. -/
theorem replaceFirst_append_of_no_match (pat rep a b : List Char)
    (h : ∀ i, i < a.length → pat.isPrefixOf ((a ++ b).drop i) = false) :
    replaceFirst pat rep (a ++ b) = a ++ replaceFirst pat rep b := by
  induction a with
  | nil => simp
  | cons c a' ih =>
    have h0 : pat.isPrefixOf (c :: (a' ++ b)) = false := by
      have := h 0 (by simp)
      simpa using this
    rw [List.cons_append, replaceFirst, h0]
    simp only [Bool.false_and, Bool.false_eq_true, if_false, List.cons_append,
      List.cons.injEq, true_and]
    exact ih (fun i hi => by
      have := h (i + 1) (by simpa using Nat.succ_lt_succ hi)
      simpa using this)

/-- `replaceFirst` replaces only the first occurrence: any later
occurrence (inside `b` here) is kept verbatim. -/
theorem replaceFirst_first_only (pat rep a b : List Char) (hne : pat ≠ [])
    (h : ∀ i, i < a.length → pat.isPrefixOf ((a ++ (pat ++ b)).drop i) = false) :
    replaceFirst pat rep (a ++ (pat ++ b)) = a ++ (rep ++ b) := by
  rw [replaceFirst_append_of_no_match pat rep a (pat ++ b) h,
    replaceFirst_append_pat pat rep b hne]

/-- `replaceAll`, by contrast, goes on scanning after a replacement. -/
theorem replaceAll_continues (pat rep a b : List Char) (hne : pat ≠ [])
    (h : ∀ i, i < a.length → pat.isPrefixOf ((a ++ (pat ++ b)).drop i) = false) :
    replaceAll pat rep (a ++ (pat ++ b)) = a ++ (rep ++ replaceAll pat rep b) := by
  rw [replaceAll_append_of_no_match pat rep a (pat ++ b) h,
    replaceAll_append_pat pat rep b hne]

/-! ## Escaping and cleanliness -/

/-- Escaping a clean character list is the identity. -/
theorem esc_eq_self (l : List Char) (h1 : '\\' ∉ l) (h2 : qC ∉ l) (h3 : '\n' ∉ l) :
    esc l = l := by
  induction l with
  | nil => rfl
  | cons c cs ih =>
    have hc1 : c ≠ '\\' := fun hc => h1 (hc ▸ List.mem_cons_self c cs)
    have hc2 : c ≠ qC := fun hc => h2 (hc ▸ List.mem_cons_self c cs)
    have hc3 : c ≠ '\n' := fun hc => h3 (hc ▸ List.mem_cons_self c cs)
    have ih' := ih (fun hm => h1 (List.mem_cons_of_mem c hm))
      (fun hm => h2 (List.mem_cons_of_mem c hm))
      (fun hm => h3 (List.mem_cons_of_mem c hm))
    simp only [esc, List.map_cons, List.flatten_cons] at ih' ⊢
    rw [ih', escChar, if_neg hc1, if_neg hc2, if_neg hc3]
    simp

/-- A clean string's escaped string token is wellformed. -/
theorem wfTok_strE (s : String) (h : cleanStr s = true) : wfTok (strE s) := by
  simp only [cleanStr, Bool.and_eq_true, decide_eq_true_eq] at h
  obtain ⟨⟨h1, h2⟩, h3⟩ := h
  show qC ∉ esc s.data
  rw [esc_eq_self s.data h1 h2 h3]
  exact h2

theorem wfTok_raw_single (c : Char) (h1 : c ≠ qC) (h2 : c ≠ hashC) :
    wfTok (STok.raw [c]) :=
  ⟨List.cons_ne_nil c [], by simpa using Ne.symm h1, by simpa using Ne.symm h2⟩

theorem wfToks_append (a b : List STok) (ha : wfToks a) (hb : wfToks b) :
    wfToks (a ++ b) := by
  intro t ht
  rcases List.mem_append.mp ht with h | h
  · exact ha t h
  · exact hb t h

theorem wfToks_single (t : STok) (h : wfTok t) : wfToks [t] := by
  intro u hu
  rw [List.mem_singleton] at hu
  exact hu ▸ h

theorem wfToks_joinComma (ls : List (List STok)) (h : ∀ l ∈ ls, wfToks l) :
    wfToks (joinComma ls) := by
  induction ls with
  | nil =>
    intro t ht
    simp [joinComma] at ht
  | cons l ls' ih =>
    cases ls' with
    | nil =>
      simpa [joinComma] using h l (List.mem_cons_self l [])
    | cons l2 ls'' =>
      have hstep : joinComma (l :: l2 :: ls'') =
          l ++ ([STok.raw [commaC]] ++ joinComma (l2 :: ls'')) := by
        simp [joinComma, List.intersperse]
      rw [hstep]
      refine wfToks_append _ _ (h l (List.mem_cons_self l _)) ?_
      refine wfToks_append _ _
        (wfToks_single _ (wfTok_raw_single commaC (by decide) (by decide))) ?_
      exact ih (fun u hu => h u (List.mem_cons_of_mem l hu))

theorem wfToks_keyToks (k : String) (h : cleanStr k = true) : wfToks (keyToks k) := by
  intro t ht
  simp only [keyToks, List.mem_cons, List.not_mem_nil, or_false] at ht
  rcases ht with rfl | rfl
  · exact wfTok_strE k h
  · exact wfTok_raw_single colonC (by decide) (by decide)

theorem wfToks_attrToks (kv : String × String)
    (h : (cleanStr kv.1 && cleanStr kv.2) = true) : wfToks (attrToks kv) := by
  rw [Bool.and_eq_true] at h
  intro t ht
  simp only [attrToks, List.mem_cons, List.not_mem_nil, or_false] at ht
  rcases ht with rfl | rfl | rfl
  · exact wfTok_strE kv.1 h.1
  · exact wfTok_raw_single colonC (by decide) (by decide)
  · exact wfTok_strE kv.2 h.2

theorem wfToks_bodyToks (tag : String) (attrs : List (String × String))
    (ctoks : List STok) (htag : cleanStr tag = true) (hattrs : cleanAttrs attrs = true)
    (hc : wfToks ctoks) : wfToks (bodyToks tag attrs ctoks) := by
  have hattrs' : ∀ kv ∈ attrs, (cleanStr kv.1 && cleanStr kv.2) = true := by
    intro kv hkv
    exact List.all_eq_true.mp hattrs kv hkv
  simp only [bodyToks, List.append_assoc]
  refine wfToks_append _ _ (wfToks_keyToks "tag" (by decide)) ?_
  refine wfToks_append _ _ (wfToks_single _ (wfTok_strE tag htag)) ?_
  refine wfToks_append _ _
    (wfToks_single _ (wfTok_raw_single commaC (by decide) (by decide))) ?_
  refine wfToks_append _ _ (wfToks_keyToks "attrs" (by decide)) ?_
  refine wfToks_append _ _
    (wfToks_single _ (wfTok_raw_single lcbC (by decide) (by decide))) ?_
  refine wfToks_append _ _ (wfToks_joinComma _ ?_) ?_
  · intro l hl
    rw [List.mem_map] at hl
    obtain ⟨kv, hkv, rfl⟩ := hl
    exact wfToks_attrToks kv (hattrs' kv hkv)
  refine wfToks_append _ _ ?_ ?_
  · intro t ht
    simp only [List.mem_cons, List.not_mem_nil, or_false] at ht
    rcases ht with rfl | rfl
    · exact wfTok_raw_single rcbC (by decide) (by decide)
    · exact wfTok_raw_single commaC (by decide) (by decide)
  refine wfToks_append _ _ (wfToks_keyToks "children" (by decide)) ?_
  refine wfToks_append _ _
    (wfToks_single _ (wfTok_raw_single lbkC (by decide) (by decide))) ?_
  refine wfToks_append _ _ hc
    (wfToks_single _ (wfTok_raw_single rbkC (by decide) (by decide)))

mutual

/-- The token sequence of a clean node is wellformed. -/
theorem wfToks_nodeToks : ∀ (n : AbstractNode), cleanNode n = true →
    wfToks (nodeToks n)
  | .mk t attrs cs => fun h => by
    rw [cleanNode] at h
    simp only [Bool.and_eq_true] at h
    obtain ⟨⟨htag, hattrs⟩, hcs⟩ := h
    rw [nodeToks]
    simp only [List.append_assoc]
    refine wfToks_append _ _
      (wfToks_single _ (wfTok_raw_single lcbC (by decide) (by decide))) ?_
    refine wfToks_append _ _ ?_
      (wfToks_single _ (wfTok_raw_single rcbC (by decide) (by decide)))
    refine wfToks_bodyToks t attrs _ htag hattrs ?_
    exact wfToks_joinComma _ (wfToks_nodeToksList cs hcs)

/-- The token sequences of a clean node list are wellformed. -/
theorem wfToks_nodeToksList : ∀ (cs : List AbstractNode),
    cleanNodeList cs = true → ∀ l ∈ nodeToksList cs, wfToks l
  | [] => fun _ l hl => by simp [nodeToksList] at hl
  | c :: cs => fun h l hl => by
    rw [cleanNodeList] at h
    simp only [Bool.and_eq_true] at h
    rw [nodeToksList] at hl
    rcases List.mem_cons.mp hl with rfl | hl'
    · exact wfToks_nodeToks c h.1
    · exact wfToks_nodeToksList cs h.2 l hl'

end

/-- The token sequence of a clean icon is wellformed. -/
theorem wfToks_iconToks (icon : IconDefinition) (h : cleanIcon icon = true) :
    wfToks (iconToks icon) := by
  rw [cleanIcon] at h
  simp only [Bool.and_eq_true] at h
  obtain ⟨⟨⟨hname, htag⟩, hattrs⟩, hcs⟩ := h
  simp only [iconToks, List.append_assoc]
  refine wfToks_append _ _
    (wfToks_single _ (wfTok_raw_single lcbC (by decide) (by decide))) ?_
  refine wfToks_append _ _ (wfToks_keyToks "name" (by decide)) ?_
  refine wfToks_append _ _ (wfToks_single _ (wfTok_strE icon.name hname)) ?_
  refine wfToks_append _ _
    (wfToks_single _ (wfTok_raw_single commaC (by decide) (by decide))) ?_
  refine wfToks_append _ _ (wfToks_keyToks "theme" (by decide)) ?_
  refine wfToks_append _ _
    (wfToks_single _ (wfTok_strE (themeName icon.theme) (by cases icon.theme <;> decide))) ?_
  refine wfToks_append _ _
    (wfToks_single _ (wfTok_raw_single commaC (by decide) (by decide))) ?_
  refine wfToks_append _ _ ?_
    (wfToks_single _ (wfTok_raw_single rcbC (by decide) (by decide)))
  refine wfToks_bodyToks icon.tag icon.attrs _ htag hattrs ?_
  exact wfToks_joinComma _ (wfToks_nodeToksList icon.children hcs)

/-- The central serialization fact: on a clean icon the chained textual
color substitution of the dual-tone emitter equals the tokenwise
substitution of the serialized form. -/
theorem colorSubst_serializeIcon (icon : IconDefinition) (h : cleanIcon icon = true) :
    colorSubstS (serializeIcon icon) =
      String.mk (flatToks ((iconToks icon).map substTok)) := by
  show String.mk (colorSubst (String.mk (flatToks (iconToks icon))).data) = _
  have hdata : (String.mk (flatToks (iconToks icon))).data = flatToks (iconToks icon) :=
    rfl
  rw [hdata, colorSubst_flatToks (iconToks icon) (wfToks_iconToks icon h)]

/-! ## Attribute-map lemmas -/

theorem lookupAttr_setAttr (attrs : List (String × String)) (k v : String) :
    lookupAttr (setAttr attrs k v) k = some v := by
  induction attrs with
  | nil => simp [setAttr, lookupAttr]
  | cons kv rest ih =>
    by_cases hk : kv.1 = k
    · simp [setAttr, hk, lookupAttr]
    · simp only [setAttr]
      rw [if_neg (by exact hk)]
      simp only [lookupAttr]
      rw [if_neg (by exact hk)]
      exact ih

theorem setAttr_eq_of_lookup (attrs : List (String × String)) (k v : String)
    (h : lookupAttr attrs k = some v) : setAttr attrs k v = attrs := by
  induction attrs with
  | nil => simp [lookupAttr] at h
  | cons kv rest ih =>
    by_cases hk : kv.1 = k
    · simp only [lookupAttr] at h
      rw [if_pos (by exact hk)] at h
      obtain ⟨k1, v1⟩ := kv
      simp only at hk
      simp only [Option.some.injEq] at h
      simp [setAttr, hk, h]
    · simp only [lookupAttr] at h
      rw [if_neg (by exact hk)] at h
      simp only [setAttr]
      rw [if_neg (by exact hk)]
      rw [ih h]

theorem AbstractNode.eta (c : AbstractNode) :
    AbstractNode.mk c.tag c.attrs c.children = c := by
  cases c
  rfl

/-- When the old `fill` is truthy, the fixup child assignment writes the
old value back and the child is unchanged. -/
theorem fixChild_of_truthy (c : AbstractNode) (v : String)
    (hl : lookupAttr c.attrs "fill" = some v) (hv : v ≠ "") : fixChild c = c := by
  have hcond : (v == "") = false := by simp [hv]
  rw [fixChild, hl]
  show AbstractNode.mk c.tag
    (setAttr c.attrs "fill" (if (v == "") = true then "#333" else v)) c.children = c
  rw [hcond]
  simp only [Bool.false_eq_true, if_false]
  rw [setAttr_eq_of_lookup c.attrs "fill" v hl, AbstractNode.eta]

/-- When the old `fill` is falsy (absent or empty), the fixup child
assignment writes the placeholder. -/
theorem fixChild_of_falsy (c : AbstractNode)
    (hl : jsFalsy (lookupAttr c.attrs "fill") = true) :
    fixChild c = AbstractNode.mk c.tag (setAttr c.attrs "fill" "#333") c.children := by
  rw [fixChild]
  cases hcase : lookupAttr c.attrs "fill" with
  | none => rfl
  | some v =>
    rw [hcase] at hl
    simp only [jsFalsy, beq_iff_eq] at hl
    simp [hl]

/-- The fill of a fixed-up child is always present and non-empty. -/
theorem fixChild_lookup (c : AbstractNode) :
    ∃ v, lookupAttr (fixChild c).attrs "fill" = some v ∧ v ≠ "" := by
  rw [fixChild]
  cases hcase : lookupAttr c.attrs "fill" with
  | none =>
    refine ⟨"#333", ?_, by decide⟩
    simpa using lookupAttr_setAttr c.attrs "fill" "#333"
  | some v =>
    by_cases hv : v = ""
    · refine ⟨"#333", ?_, by decide⟩
      simp only [hv, beq_iff_eq, if_pos rfl]
      simpa using lookupAttr_setAttr c.attrs "fill" "#333"
    · refine ⟨v, ?_, hv⟩
      simp only [beq_iff_eq, if_neg (by exact hv)]
      simpa using lookupAttr_setAttr c.attrs "fill" v

/-! ## `fill`-stripping lemmas -/

theorem lookupAttr_filter_fill (attrs : List (String × String)) :
    lookupAttr (attrs.filter (fun kv => kv.1 ≠ "fill")) "fill" = none := by
  induction attrs with
  | nil => rfl
  | cons kv rest ih =>
    by_cases hk : kv.1 = "fill"
    · simp only [List.filter_cons]
      rw [if_neg (by simp [hk])]
      exact ih
    · simp only [List.filter_cons]
      rw [if_pos (by simpa using hk)]
      simp only [lookupAttr]
      rw [if_neg (by exact hk)]
      exact ih

mutual

theorem noFillDeep_removeFillDeep : ∀ (n : AbstractNode),
    noFillDeep (removeFillDeep n) = true
  | .mk t attrs cs => by
    rw [removeFillDeep, noFillDeep]
    simp only [Bool.and_eq_true, decide_eq_true_eq]
    exact ⟨lookupAttr_filter_fill attrs, noFillList_removeFillList cs⟩

theorem noFillList_removeFillList : ∀ (cs : List AbstractNode),
    noFillList (removeFillList cs) = true
  | [] => rfl
  | c :: cs => by
    rw [removeFillList, noFillList]
    simp only [Bool.and_eq_true]
    exact ⟨noFillDeep_removeFillDeep c, noFillList_removeFillList cs⟩

end

/-! ## Task-list and materialization lemmas -/

theorem mem_tasksFor (inp : BuildInput) (t : ThemeType × String) :
    t ∈ tasksFor inp ↔
      t.2 ∈ inp.svgBasicNames ∧ inp.accessable t.1 t.2 = true := by
  constructor
  · intro h
    rw [tasksFor, List.mem_flatMap] at h
    obtain ⟨th, _, hmem⟩ := h
    rw [List.mem_map] at hmem
    obtain ⟨n, hn, rfl⟩ := hmem
    rw [List.mem_filter] at hn
    exact ⟨hn.1, hn.2⟩
  · intro ⟨h1, h2⟩
    rw [tasksFor, List.mem_flatMap]
    refine ⟨t.1, by cases t.1 <;> simp [themeOrder], ?_⟩
    rw [List.mem_map]
    exact ⟨t.2, List.mem_filter.mpr ⟨h1, h2⟩, rfl⟩

theorem metasOf_eq_map (inp : BuildInput)
    (m : ThemeType × String → BuildTimeIconMetaData)
    (σ : List (ThemeType × String))
    (hm : ∀ t ∈ σ, materialize inp t.1 t.2 = .ok (m t)) :
    metasOf inp σ = .ok (σ.map m) := by
  induction σ with
  | nil => rfl
  | cons t rest ih =>
    rw [metasOf, hm t (List.mem_cons_self t rest),
      ih (fun u hu => hm u (List.mem_cons_of_mem t hu))]
    rfl

theorem iconPhase_ok (cfg : BuildConfig) (inp : BuildInput)
    (m : ThemeType × String → BuildTimeIconMetaData)
    (σ : List (ThemeType × String))
    (hm : ∀ t ∈ σ, materialize inp t.1 t.2 = .ok (m t)) :
    iconPhase cfg inp σ = (σ.map (fun t => iconWriteTask cfg (m t)), none) := by
  induction σ with
  | nil => rfl
  | cons t rest ih =>
    rw [iconPhase, hm t (List.mem_cons_self t rest),
      ih (fun u hu => hm u (List.mem_cons_of_mem t hu))]
    rfl

theorem iconPhase_writes_mem (cfg : BuildConfig) (inp : BuildInput)
    (σ : List (ThemeType × String)) :
    ∀ w ∈ (iconPhase cfg inp σ).1, ∃ t ∈ σ, ∃ mm,
      materialize inp t.1 t.2 = .ok mm ∧ w = iconWriteTask cfg mm := by
  induction σ with
  | nil =>
    intro w hw
    simp [iconPhase] at hw
  | cons t rest ih =>
    intro w hw
    rw [iconPhase] at hw
    cases hmat : materialize inp t.1 t.2 with
    | error e =>
      rw [hmat] at hw
      simp at hw
    | ok m =>
      rw [hmat] at hw
      simp only [List.mem_cons] at hw
      rcases hw with rfl | hw
      · exact ⟨t, List.mem_cons_self t rest, m, hmat, rfl⟩
      · obtain ⟨u, hu, mm, hmm, hwmm⟩ := ih w hw
        exact ⟨u, List.mem_cons_of_mem t hu, mm, hmm, hwmm⟩

theorem iconPhase_fail (cfg : BuildConfig) (inp : BuildInput)
    (σ : List (ThemeType × String))
    (h : ∃ t ∈ σ, ∃ e, materialize inp t.1 t.2 = .error e) :
    ∃ e, (iconPhase cfg inp σ).2 = some e := by
  induction σ with
  | nil => simp at h
  | cons t rest ih =>
    obtain ⟨u, hu, e, he⟩ := h
    rw [iconPhase]
    cases hmat : materialize inp t.1 t.2 with
    | error e' => exact ⟨e', rfl⟩
    | ok m =>
      rcases List.mem_cons.mp hu with rfl | hu'
      · rw [hmat] at he
        exact absurd he (by simp)
      · simpa using ih ⟨u, hu', e, he⟩

/-! ## Manifest lemmas -/

theorem buildManifest_get (inp : BuildInput) (th : ThemeType) :
    (buildManifest inp).get th = inp.svgBasicNames.filter (inp.accessable th) := by
  cases th <;> rfl

/-! ## Store lemmas -/

theorem set_append_length {α : Type} (l : List α) (x y : α) :
    (l ++ [x]).set l.length y = l ++ [y] := by
  induction l with
  | nil => rfl
  | cons a rest ih => simp [List.set, ih]

theorem getD_append_lt {α : Type} (l l' : List α) (n : Nat) (d : α)
    (h : n < l.length) : (l ++ l').getD n d = l.getD n d := by
  induction l generalizing n with
  | nil => simp at h
  | cons a rest ih =>
    cases n with
    | zero => rfl
    | succ n' =>
      simp only [List.getD, List.cons_append, List.getElem?_cons_succ]
      have := ih n' (by simpa using Nat.lt_of_succ_lt_succ h)
      simpa [List.getD] using this

theorem getD_append_self {α : Type} (l : List α) (x : α) (d : α) :
    (l ++ [x]).getD l.length d = x := by
  induction l with
  | nil => rfl
  | cons a rest ih => simp [List.getD]

/-- The shape of a successful materialization: the icon is tagged with the
task's theme and name, and the identifier derives from both. -/
theorem materialize_ok_shape (inp : BuildInput) (th : ThemeType) (name : String)
    (meta : BuildTimeIconMetaData) (h : materialize inp th name = .ok meta) :
    meta.icon.theme = th ∧ meta.icon.name = name ∧
    meta.identifier = getIdentifier (pascalCase name) th := by
  rw [materialize] at h
  cases hraw : inp.raw th name with
  | error e =>
    rw [hraw] at h
    exact absurd h (by simp)
  | ok tree =>
    rw [hraw] at h
    simp only [Except.ok.injEq] at h
    rw [← h]
    exact ⟨rfl, rfl, rfl⟩

/-- A raw optimize/parse failure propagates to the materialization. -/
theorem materialize_error_of_raw (inp : BuildInput) (th : ThemeType) (name : String)
    (e : String) (h : inp.raw th name = .error e) :
    materialize inp th name = .error e := by
  rw [materialize, h]

/-- The `fill`-free shape of a stripped tree. -/
theorem removeFillDeep_parts (n : AbstractNode) :
    lookupAttr (removeFillDeep n).attrs "fill" = none ∧
    noFillList (removeFillDeep n).children = true := by
  cases n with
  | mk t attrs cs =>
    rw [removeFillDeep]
    constructor
    · simpa [AbstractNode.attrs] using lookupAttr_filter_fill attrs
    · simpa [AbstractNode.children] using noFillList_removeFillList cs

/-! ## Claim theorems -/

/-- C5: for every theme, the manifest's entry equals exactly the
subsequence of the canonical base-name list for which a source file
exists under that theme — the filter of `svgBasicNames` by per-theme
existence, in canonical order; names without an existing file under the
theme are excluded. -/
theorem manifest_entries_filter (inp : BuildInput) (th : ThemeType) :
    (buildManifest inp).get th = inp.svgBasicNames.filter (inp.accessable th) ∧
    ((buildManifest inp).get th).Sublist inp.svgBasicNames ∧
    (∀ n, n ∈ (buildManifest inp).get th ↔
      n ∈ inp.svgBasicNames ∧ inp.accessable th n = true) := by
  refine ⟨buildManifest_get inp th, ?_, ?_⟩
  · rw [buildManifest_get]
    exact List.filter_sublist _
  · intro n
    rw [buildManifest_get]
    exact List.mem_filter

/-- C3 counterexample: `icon3` is a twotone icon whose single immediate
child is a `g` group element — not a path-like drawable node — with a
present-but-empty `fill` attribute.  The claim says such a child keeps
its fill and that only fill-less path-like children are touched, but the
fixup overwrites the child's fill with `'#333'`. -/
theorem theme_fixup_counterexample :
    icon3.theme = .twotone ∧
    icon3.children.map AbstractNode.tag = ["g"] ∧
    icon3.children.map (fun c => lookupAttr c.attrs "fill") = [some ""] ∧
    (fixupIcon icon3).children.map (fun c => lookupAttr c.attrs "fill") =
      [some "#333"] :=
  ⟨rfl, rfl, rfl, rfl⟩

/-- C3 (amended): Theme Fixup applies only when the theme is twotone, and
it assigns `'#333'` to every immediate child — path-like or not — whose
`fill` attribute is absent or falsy (the empty string); children with a
non-empty fill are unchanged, and after the fixup every immediate child
carries a present, non-empty fill. -/
theorem theme_fixup_amended (icon : IconDefinition) (h : icon.theme = .twotone) :
    (fixupIcon icon).children = icon.children.map fixChild ∧
    (∀ c ∈ icon.children,
      (jsFalsy (lookupAttr c.attrs "fill") = true →
        lookupAttr (fixChild c).attrs "fill" = some "#333") ∧
      (∀ v, lookupAttr c.attrs "fill" = some v → v ≠ "" → fixChild c = c)) ∧
    (∀ c ∈ (fixupIcon icon).children,
      ∃ v, lookupAttr c.attrs "fill" = some v ∧ v ≠ "") ∧
    (∀ icon' : IconDefinition, icon'.theme ≠ .twotone → fixupIcon icon' = icon') := by
  refine ⟨by simp [fixupIcon, h], ?_, ?_, ?_⟩
  · intro c _
    constructor
    · intro hfalsy
      rw [fixChild_of_falsy c hfalsy]
      simpa [AbstractNode.attrs] using lookupAttr_setAttr c.attrs "fill" "#333"
    · intro v hl hv
      exact fixChild_of_truthy c v hl hv
  · intro c hc
    rw [fixupIcon, if_pos h] at hc
    simp only [List.mem_map] at hc
    obtain ⟨c0, _, rfl⟩ := hc
    exact fixChild_lookup c0
  · intro icon' h'
    simp [fixupIcon, h']

/-- C3 amended, instantiated at the concrete twotone icon `iconW`. -/
theorem theme_fixup_amended_witness :
    (fixupIcon iconW).children = iconW.children.map fixChild ∧
    (∀ c ∈ iconW.children,
      (jsFalsy (lookupAttr c.attrs "fill") = true →
        lookupAttr (fixChild c).attrs "fill" = some "#333") ∧
      (∀ v, lookupAttr c.attrs "fill" = some v → v ≠ "" → fixChild c = c)) ∧
    (∀ c ∈ (fixupIcon iconW).children,
      ∃ v, lookupAttr c.attrs "fill" = some v ∧ v ≠ "") ∧
    (∀ icon' : IconDefinition, icon'.theme ≠ .twotone → fixupIcon icon' = icon') :=
  theme_fixup_amended iconW rfl

/-- C9: for a twotone icon the fixup assigns `'#333'` to every immediate
child whatsoever — no tag condition — whenever the child's `fill` is
absent or any falsy string (the empty string); an empty-string fill is
overwritten with `'#333'`, not preserved. -/
theorem twotone_fixup_all_children (icon : IconDefinition)
    (h : icon.theme = .twotone) :
    (fixupIcon icon).children = icon.children.map fixChild ∧
    (∀ c ∈ icon.children,
      ((lookupAttr c.attrs "fill" = none ∨ lookupAttr c.attrs "fill" = some "") →
        fixChild c =
          AbstractNode.mk c.tag (setAttr c.attrs "fill" "#333") c.children) ∧
      (lookupAttr c.attrs "fill" = some "" →
        lookupAttr (fixChild c).attrs "fill" = some "#333")) := by
  refine ⟨by simp [fixupIcon, h], ?_⟩
  intro c _
  have hfalsy : (lookupAttr c.attrs "fill" = none ∨
      lookupAttr c.attrs "fill" = some "") →
      jsFalsy (lookupAttr c.attrs "fill") = true := by
    rintro (he | he) <;> rw [he] <;> rfl
  constructor
  · intro hcase
    exact fixChild_of_falsy c (hfalsy hcase)
  · intro he
    rw [fixChild_of_falsy c (hfalsy (Or.inr he))]
    simpa [AbstractNode.attrs] using lookupAttr_setAttr c.attrs "fill" "#333"

/-- C9, instantiated at `icon3`, whose single child has an empty-string
fill that the fixup overwrites. -/
theorem twotone_fixup_all_children_witness :
    (fixupIcon icon3).children = icon3.children.map fixChild ∧
    (∀ c ∈ icon3.children,
      ((lookupAttr c.attrs "fill" = none ∨ lookupAttr c.attrs "fill" = some "") →
        fixChild c =
          AbstractNode.mk c.tag (setAttr c.attrs "fill" "#333") c.children) ∧
      (lookupAttr c.attrs "fill" = some "" →
        lookupAttr (fixChild c).attrs "fill" = some "#333")) :=
  twotone_fixup_all_children icon3 rfl

/-- C7: the twotone emitter step clones before mutating: the originally
materialized icon object is unchanged afterwards, the reference the
emitter serializes holds the fixed-up value, and for twotone it is a
fresh reference distinct from the original — no aliasing. -/
theorem twotone_fixup_no_aliasing (s : IconStore) (r : Nat)
    (hr : r < s.icons.length) :
    (emitterAliasStep s r).1.getRef r = s.getRef r ∧
    (emitterAliasStep s r).1.getRef (emitterAliasStep s r).2 =
      fixupIcon (s.getRef r) ∧
    ((s.getRef r).theme = .twotone → (emitterAliasStep s r).2 ≠ r) := by
  by_cases htw : (s.getRef r).theme = .twotone
  · have hstore : (emitterAliasStep s r).1 =
        { icons := s.icons ++
            [{ s.getRef r with children := (s.getRef r).children.map fixChild }] } := by
      rw [emitterAliasStep, if_pos htw]
      show fixupAtRef { icons := s.icons ++ [s.getRef r] } s.icons.length = _
      rw [fixupAtRef]
      have hget : IconStore.getRef { icons := s.icons ++ [s.getRef r] }
          s.icons.length = s.getRef r := by
        rw [IconStore.getRef]
        exact getD_append_self s.icons (s.getRef r) defaultIcon
      rw [hget, set_append_length]
    have href : (emitterAliasStep s r).2 = s.icons.length := by
      rw [emitterAliasStep, if_pos htw]
      rfl
    refine ⟨?_, ?_, ?_⟩
    · rw [hstore, IconStore.getRef]
      exact getD_append_lt s.icons _ r defaultIcon hr
    · rw [hstore, href, IconStore.getRef]
      show (s.icons ++ [_]).getD s.icons.length defaultIcon = _
      rw [getD_append_self]
      rw [fixupIcon, if_pos htw]
    · intro _
      rw [href]
      omega
  · rw [emitterAliasStep, if_neg htw]
    exact ⟨rfl, by rw [fixupIcon, if_neg htw], fun hc => absurd hc htw⟩

/-- C7, instantiated at a one-icon store holding a twotone icon. -/
theorem twotone_fixup_no_aliasing_witness :
    (emitterAliasStep storeW 0).1.getRef 0 = storeW.getRef 0 ∧
    (emitterAliasStep storeW 0).1.getRef (emitterAliasStep storeW 0).2 =
      fixupIcon (storeW.getRef 0) ∧
    ((storeW.getRef 0).theme = .twotone → (emitterAliasStep storeW 0).2 ≠ 0) :=
  twotone_fixup_no_aliasing storeW 0 (by decide)

/-- C8: materialization succeeds whenever the raw optimize/parse step
does; under the `fill`/`outline` themes the selected optimizer variant
strips every `fill` attribute, so the materialized tree carries none at
any node, while under `twotone` the tree passes through the unmodified
optimizer unchanged. -/
theorem single_theme_strips_fill (inp : BuildInput) (th : ThemeType)
    (name : String) (tree : AbstractNode) (htree : inp.raw th name = .ok tree) :
    (∃ meta, materialize inp th name = .ok meta) ∧
    ((th = .fill ∨ th = .outline) →
      ∀ meta, materialize inp th name = .ok meta → iconNoFill meta.icon = true) ∧
    (th = .twotone → ∀ meta, materialize inp th name = .ok meta →
      meta.icon.tag = tree.tag ∧ meta.icon.attrs = tree.attrs ∧
      meta.icon.children = tree.children) := by
  refine ⟨⟨_, by rw [materialize, htree]⟩, ?_, ?_⟩
  · intro hsingle meta hmeta
    have hcont : singleType.contains th = true := by
      rcases hsingle with rfl | rfl <;> decide
    rw [materialize, htree] at hmeta
    simp only [hcont, if_true, Except.ok.injEq] at hmeta
    rw [← hmeta]
    rw [iconNoFill]
    simp only [Bool.and_eq_true, decide_eq_true_eq]
    exact ⟨(removeFillDeep_parts tree).1, (removeFillDeep_parts tree).2⟩
  · intro htw meta hmeta
    subst htw
    rw [materialize, htree] at hmeta
    simp only [show singleType.contains ThemeType.twotone = false from rfl,
      Bool.false_eq_true, if_false, Except.ok.injEq] at hmeta
    rw [← hmeta]
    exact ⟨rfl, rfl, rfl⟩

/-- C8, instantiated for the `fill` theme at the concrete input `inpW`,
whose raw tree carries `fill` attributes at two depths. -/
theorem single_theme_strips_fill_witness :
    (∃ meta, materialize inpW ThemeType.fill "home" = .ok meta) ∧
    ((ThemeType.fill = ThemeType.fill ∨ ThemeType.fill = ThemeType.outline) →
      ∀ meta, materialize inpW ThemeType.fill "home" = .ok meta →
        iconNoFill meta.icon = true) ∧
    (ThemeType.fill = ThemeType.twotone →
      ∀ meta, materialize inpW ThemeType.fill "home" = .ok meta →
        meta.icon.tag = treeW.tag ∧ meta.icon.attrs = treeW.attrs ∧
        meta.icon.children = treeW.children) :=
  single_theme_strips_fill inpW ThemeType.fill "home" treeW rfl

/-- C6: a (theme, name) pair whose source file does not exist is skipped
silently: it never becomes a materialization task, its name is absent
from the manifest's theme entry, the run still resolves successfully when
every accessible task materializes — even if the missing pair's raw step
would fail — and every executed write is the manifest, the index, or an
icon write of an accessible task. -/
theorem missing_asset_skipped (cfg : BuildConfig) (inp : BuildInput)
    (th : ThemeType) (name : String) (h : inp.accessable th name = false)
    (m : ThemeType × String → BuildTimeIconMetaData)
    (hm : ∀ t ∈ tasksFor inp, materialize inp t.1 t.2 = .ok (m t)) :
    (th, name) ∉ tasksFor inp ∧
    name ∉ (buildManifest inp).get th ∧
    (buildRun cfg inp (tasksFor inp) (tasksFor inp)).result = .ok () ∧
    (∀ w ∈ (buildRun cfg inp (tasksFor inp) (tasksFor inp)).writes,
      w = manifestWriteTask cfg inp ∨
      w = indexWriteTask cfg ((tasksFor inp).map m) ∨
      ∃ t ∈ tasksFor inp, w = iconWriteTask cfg (m t)) := by
  have hphase := iconPhase_ok cfg inp m (tasksFor inp) hm
  have hmetas := metasOf_eq_map inp m (tasksFor inp) hm
  have hrun : buildRun cfg inp (tasksFor inp) (tasksFor inp) =
      { writes := ((tasksFor inp).map (fun t => iconWriteTask cfg (m t)) ++
          [manifestWriteTask cfg inp]) ++ [indexWriteTask cfg ((tasksFor inp).map m)]
        result := .ok () } := by
    rw [buildRun, hphase, hmetas]
  refine ⟨?_, ?_, ?_, ?_⟩
  · intro hmem
    rw [mem_tasksFor] at hmem
    rw [hmem.2] at h
    exact absurd h (by simp)
  · intro hmem
    rw [buildManifest_get, List.mem_filter] at hmem
    rw [hmem.2] at h
    exact absurd h (by simp)
  · rw [hrun]
  · intro w hw
    rw [hrun] at hw
    simp only [List.mem_append, List.mem_singleton, List.mem_map] at hw
    rcases hw with (⟨t, ht, rfl⟩ | rfl) | rfl
    · exact Or.inr (Or.inr ⟨t, ht, rfl⟩)
    · exact Or.inl rfl
    · exact Or.inr (Or.inl rfl)

/-- C6, instantiated at `inp0` for the `twotone` theme and the name `a`,
whose source exists only under `fill`. -/
theorem missing_asset_skipped_witness :
    (ThemeType.twotone, "a") ∉ tasksFor inp0 ∧
    "a" ∉ (buildManifest inp0).get ThemeType.twotone ∧
    (buildRun cfg0 inp0 (tasksFor inp0) (tasksFor inp0)).result = .ok () ∧
    (∀ w ∈ (buildRun cfg0 inp0 (tasksFor inp0) (tasksFor inp0)).writes,
      w = manifestWriteTask cfg0 inp0 ∨
      w = indexWriteTask cfg0 ((tasksFor inp0).map m0) ∨
      ∃ t ∈ tasksFor inp0, w = iconWriteTask cfg0 (m0 t)) :=
  missing_asset_skipped cfg0 inp0 ThemeType.twotone "a" (by decide) m0
    (by
      intro t ht
      have hconc : tasksFor inp0 = [(ThemeType.fill, "a"), (ThemeType.fill, "b")] := by
        decide
      rw [hconc] at ht
      simp only [List.mem_cons, List.not_mem_nil, or_false] at ht
      rcases ht with rfl | rfl <;> rfl)

/-- C2 counterexample: with source `a` materializing successfully and
source `b` failing optimization, the run rejects with the error but the
write of `a`'s module has already executed — an output write beyond the
pre-run clear occurs despite the failure, refuting "no write task is
executed". -/
theorem failure_write_counterexample :
    (buildRun cfg0 inpFail (tasksFor inpFail) (tasksFor inpFail)).result =
      .error "bad" ∧
    (buildRun cfg0 inpFail (tasksFor inpFail) (tasksFor inpFail)).writes ≠ [] :=
  ⟨rfl, by decide⟩

/-- C2 (amended): an optimize/parse failure of any accessible source
aborts the run — the promise rejects with the error — and neither the
manifest nor the index is ever written: every executed write is an icon
write of a task that materialized successfully.  Icon writes emitted
before the failure have however already executed, so the output
directory may contain some icon modules beyond the pre-run clear. -/
theorem failure_aborts_amended (cfg : BuildConfig) (inp : BuildInput)
    (σ1 σ2 : List (ThemeType × String)) (hσ : σ1.Perm (tasksFor inp))
    (hfail : ∃ t ∈ tasksFor inp, ∃ e, inp.raw t.1 t.2 = .error e) :
    (∃ e, (buildRun cfg inp σ1 σ2).result = .error e) ∧
    ∀ w ∈ (buildRun cfg inp σ1 σ2).writes, ∃ t ∈ tasksFor inp, ∃ mm,
      materialize inp t.1 t.2 = .ok mm ∧ w = iconWriteTask cfg mm := by
  have hfail' : ∃ t ∈ σ1, ∃ e, materialize inp t.1 t.2 = .error e := by
    obtain ⟨t, ht, e, he⟩ := hfail
    exact ⟨t, hσ.mem_iff.mpr ht, e, materialize_error_of_raw inp t.1 t.2 e he⟩
  obtain ⟨e, he⟩ := iconPhase_fail cfg inp σ1 hfail'
  have hrun : buildRun cfg inp σ1 σ2 =
      { writes := (iconPhase cfg inp σ1).1, result := .error e } := by
    rw [buildRun]
    rcases hp : iconPhase cfg inp σ1 with ⟨ws, err⟩
    rw [hp] at he
    simp only at he
    rw [he]
  refine ⟨⟨e, by rw [hrun]⟩, ?_⟩
  intro w hw
  rw [hrun] at hw
  obtain ⟨t, ht, mm, hmm, hwm⟩ := iconPhase_writes_mem cfg inp σ1 w hw
  exact ⟨t, hσ.mem_iff.mp ht, mm, hmm, hwm⟩

/-- C2 amended, instantiated at `inpFail`, whose accessible task for `b`
fails to optimize. -/
theorem failure_aborts_amended_witness :
    (∃ e, (buildRun cfg0 inpFail (tasksFor inpFail) (tasksFor inpFail)).result =
      .error e) ∧
    ∀ w ∈ (buildRun cfg0 inpFail (tasksFor inpFail) (tasksFor inpFail)).writes,
      ∃ t ∈ tasksFor inpFail, ∃ mm,
        materialize inpFail t.1 t.2 = .ok mm ∧ w = iconWriteTask cfg0 mm :=
  failure_aborts_amended cfg0 inpFail (tasksFor inpFail) (tasksFor inpFail)
    (List.Perm.refl _) ⟨(ThemeType.fill, "b"), by decide, "bad", rfl⟩

/-- C1 counterexample: for the same inputs, two valid completion orders of
the concurrently-running materialization tasks — the subscription order
and its reverse — yield index contents whose re-export lines appear in
different orders: the emitted order is the tasks' completion order, so it
is not theme-then-canonical-name order regardless of which task finished
first. -/
theorem index_order_counterexample :
    sigma0.Perm (tasksFor inp0) ∧
    (metasOf inp0 sigma0).toOption.map indexLines ≠
      (metasOf inp0 (tasksFor inp0)).toOption.map indexLines :=
  ⟨by decide, by decide⟩

/-- C1 (amended): the index reduce emits exactly one re-export line per
materialized icon — as a multiset the lines are exactly those of the
canonical theme-then-canonical-name task list, each line referencing
'./theme/identifier' — but their order is the completion order of the
materialization tasks under the index's own subscription; when the tasks
complete in subscription order, that is theme order then canonical name
order.  The order is not independent of which task finished first. -/
theorem index_lines_amended (inp : BuildInput)
    (m : ThemeType × String → BuildTimeIconMetaData)
    (σ : List (ThemeType × String)) (hσ : σ.Perm (tasksFor inp))
    (hm : ∀ t ∈ tasksFor inp, materialize inp t.1 t.2 = .ok (m t)) :
    metasOf inp σ = .ok (σ.map m) ∧
    ((σ.map m).map exportLine).Perm (((tasksFor inp).map m).map exportLine) ∧
    (∀ t ∈ tasksFor inp, (m t).icon.theme = t.1 ∧ (m t).icon.name = t.2 ∧
      (m t).identifier = getIdentifier (pascalCase t.2) t.1 ∧
      exportLine (m t) = "export \x7b default as " ++ (m t).identifier ++
        " \x7d from './" ++ themeName t.1 ++ "/" ++ (m t).identifier ++ "';\n") := by
  refine ⟨metasOf_eq_map inp m σ (fun t ht => hm t (hσ.mem_iff.mp ht)), ?_, ?_⟩
  · exact (hσ.map m).map exportLine
  · intro t ht
    obtain ⟨hth, hname, hid⟩ := materialize_ok_shape inp t.1 t.2 (m t) (hm t ht)
    refine ⟨hth, hname, hid, ?_⟩
    rw [exportLine, hth]

/-- C1 amended, instantiated at `inp0` with the reversed completion order
`sigma0`. -/
theorem index_lines_amended_witness :
    metasOf inp0 sigma0 = .ok (sigma0.map m0) ∧
    ((sigma0.map m0).map exportLine).Perm
      (((tasksFor inp0).map m0).map exportLine) ∧
    (∀ t ∈ tasksFor inp0, (m0 t).icon.theme = t.1 ∧ (m0 t).icon.name = t.2 ∧
      (m0 t).identifier = getIdentifier (pascalCase t.2) t.1 ∧
      exportLine (m0 t) = "export \x7b default as " ++ (m0 t).identifier ++
        " \x7d from './" ++ themeName t.1 ++ "/" ++ (m0 t).identifier ++ "';\n") :=
  index_lines_amended inp0 m0 sigma0 (by decide)
    (by
      intro t ht
      have hconc : tasksFor inp0 = [(ThemeType.fill, "a"), (ThemeType.fill, "b")] := by
        decide
      rw [hconc] at ht
      simp only [List.mem_cons, List.not_mem_nil, or_false] at ht
      rcases ht with rfl | rfl <;> rfl)

/-- C4: the dual-tone color substitution is purely textual on the
serialized icon: on a clean icon it equals the tokenwise map `substTok` —
`"#333"` string tokens become the parameter name `primaryColor`, the
three secondary placeholders become `secondaryColor`, and every other
token, any other color literal included, passes through unchanged —
and serialized text containing no occurrence of any of the four quoted
placeholder literals is left entirely unchanged; the getter body splices
exactly this substituted text. -/
theorem dualtone_subst_textual (icon : IconDefinition) (h : cleanIcon icon = true)
    (s : List Char)
    (hno : ∀ i, i < s.length →
      (quoted lit333).isPrefixOf (s.drop i) = false ∧
      (quoted litE6).isPrefixOf (s.drop i) = false ∧
      (quoted litD9).isPrefixOf (s.drop i) = false ∧
      (quoted litD8).isPrefixOf (s.drop i) = false) :
    colorSubstS (serializeIcon icon) =
      String.mk (flatToks ((iconToks icon).map substTok)) ∧
    colorSubst s = s ∧
    getterBody icon =
      "function (primaryColor: string, secondaryColor: string) \x7b return " ++
        String.mk (flatToks ((iconToks icon).map substTok)) ++ "; \x7d" := by
  have h1 := colorSubst_serializeIcon icon h
  have e1 : replaceAll (quoted lit333) primaryRep s = s :=
    replaceAll_of_no_match _ _ s (fun i hi => (hno i hi).1)
  have e2 : replaceAll (quoted litE6) secondaryRep s = s :=
    replaceAll_of_no_match _ _ s (fun i hi => (hno i hi).2.1)
  have e3 : replaceAll (quoted litD9) secondaryRep s = s :=
    replaceAll_of_no_match _ _ s (fun i hi => (hno i hi).2.2.1)
  have e4 : replaceAll (quoted litD8) secondaryRep s = s :=
    replaceAll_of_no_match _ _ s (fun i hi => (hno i hi).2.2.2)
  refine ⟨h1, ?_, ?_⟩
  · show replaceAll (quoted litD8) secondaryRep
        (replaceAll (quoted litD9) secondaryRep
          (replaceAll (quoted litE6) secondaryRep
            (replaceAll (quoted lit333) primaryRep s))) = s
    rw [e1, e2, e3, e4]
  · show "function (primaryColor: string, secondaryColor: string) \x7b return " ++
      colorSubstS (serializeIcon icon) ++ "; \x7d" = _
    rw [h1]

/-- C4, instantiated at the clean icon `iconW` (which carries `"#333"`,
the unrecognized literal `"#1890FF"` and a fill-less path) and at a text
holding only unrecognized color literals. -/
theorem dualtone_subst_textual_witness :
    (colorSubstS (serializeIcon iconW) =
      String.mk (flatToks ((iconToks iconW).map substTok)) ∧
    colorSubst ("\"#1890FF\" \"#ABCDEF\" #333".data) =
      "\"#1890FF\" \"#ABCDEF\" #333".data ∧
    getterBody iconW =
      "function (primaryColor: string, secondaryColor: string) \x7b return " ++
        String.mk (flatToks ((iconToks iconW).map substTok)) ++ "; \x7d") :=
  dualtone_subst_textual iconW (by decide) ("\"#1890FF\" \"#ABCDEF\" #333".data)
    (by decide)

/-- C10: the color replacement is global over the entire serialized JSON —
on a clean icon every string token, at any depth and for any attribute,
goes through the tokenwise `substTok` — whereas a template placeholder
token is replaced only at its first occurrence: `replaceFirst` keeps any
later occurrence verbatim (it survives at its shifted position), while
`replaceAll` keeps scanning the rest of the text. -/
theorem global_color_first_template (icon : IconDefinition)
    (h : cleanIcon icon = true) (pat rep a b : List Char) (hne : pat ≠ [])
    (hnm : ∀ i, i < a.length →
      pat.isPrefixOf ((a ++ (pat ++ b)).drop i) = false) :
    colorSubstS (serializeIcon icon) =
      String.mk (flatToks ((iconToks icon).map substTok)) ∧
    replaceFirst pat rep (a ++ (pat ++ b)) = a ++ (rep ++ b) ∧
    (∀ j, pat.isPrefixOf (b.drop j) = true →
      pat.isPrefixOf
        ((replaceFirst pat rep (a ++ (pat ++ b))).drop (a.length + rep.length + j)) =
        true) ∧
    replaceAll pat rep (a ++ (pat ++ b)) = a ++ (rep ++ replaceAll pat rep b) := by
  have h2 := replaceFirst_first_only pat rep a b hne hnm
  refine ⟨colorSubst_serializeIcon icon h, h2, ?_,
    replaceAll_continues pat rep a b hne hnm⟩
  intro j hj
  rw [h2]
  have hassoc : a ++ (rep ++ b) = (a ++ rep) ++ b := (List.append_assoc a rep b).symm
  rw [hassoc, List.drop_append_eq_append_drop]
  have hlen : a.length + rep.length + j - (a ++ rep).length = j := by
    simp [List.length_append]
  have hnil : (a ++ rep).drop (a.length + rep.length + j) = [] := by
    rw [List.drop_eq_nil_iff]
    simp only [List.length_append]
    omega
  rw [hlen, hnil, List.nil_append]
  exact hj

/-- C10, instantiated at `iconW` and a template text in which the
placeholder token occurs twice. -/
theorem global_color_first_template_witness :
    (colorSubstS (serializeIcon iconW) =
      String.mk (flatToks ((iconToks iconW).map substTok)) ∧
    replaceFirst "<ID>".data "HomeTwoTone".data
        ("X ".data ++ ("<ID>".data ++ " Y <ID> Z".data)) =
      "X ".data ++ ("HomeTwoTone".data ++ " Y <ID> Z".data) ∧
    (∀ j, "<ID>".data.isPrefixOf (" Y <ID> Z".data.drop j) = true →
      "<ID>".data.isPrefixOf
        ((replaceFirst "<ID>".data "HomeTwoTone".data
          ("X ".data ++ ("<ID>".data ++ " Y <ID> Z".data))).drop
            ("X ".data.length + "HomeTwoTone".data.length + j)) = true) ∧
    replaceAll "<ID>".data "HomeTwoTone".data
        ("X ".data ++ ("<ID>".data ++ " Y <ID> Z".data)) =
      "X ".data ++ ("HomeTwoTone".data ++
        replaceAll "<ID>".data "HomeTwoTone".data " Y <ID> Z".data)) :=
  global_color_first_template iconW (by decide) "<ID>".data "HomeTwoTone".data
    "X ".data " Y <ID> Z".data (by decide) (by decide)

end AntdIcons
